import Mathlib

/-!
Verification development for a WebGL scene-viewer application consisting of
an OBJ mesh loader (`OBJLoader`), a scenegraph (`Scene`, `SceneNode`,
`ModelNode`) and an application driver.

Modelling conventions:
* JS numbers are modelled as exact rationals (`ℚ`); `NaN` produced by
  `parseInt` on a non-numeric token is modelled as `none : Option Int`.
* Thrown JS exceptions are modelled with `Except`: a `throw` of a template
  string becomes `.error` carrying the message, and a runtime `TypeError`
  (e.g. destructuring `undefined`) is a distinct error constructor.
* 4x4 matrices (`mat4`) enter the scenegraph logic only through
  `mat4.create()` (the identity) and `mat4.multiply`; they are modelled by
  an arbitrary monoid `M`, with `1` for `mat4.create()` and `*` for
  `mat4.multiply` in argument order.
-/

/-- Decidable equality of `Except` values, used to evaluate the embedded
operations on concrete inputs. -/
instance {ε α : Type} [DecidableEq ε] [DecidableEq α] :
    DecidableEq (Except ε α) := fun a b =>
  match a, b with
  | .ok x, .ok y =>
      if h : x = y then .isTrue (by rw [h]) else .isFalse (by simp [h])
  | .error e, .error f =>
      if h : e = f then .isTrue (by rw [h]) else .isFalse (by simp [h])
  | .ok _, .error _ => .isFalse (by simp)
  | .error _, .ok _ => .isFalse (by simp)

/-- JS number addition on exact rationals, realized with `Rat.divInt` so
that it evaluates on concrete inputs by `decide` (the standard `Rat`
arithmetic is irreducible in this toolchain); proved equal to `(· + ·)` in
`jsAdd_eq`. -/
def jsAdd (a b : ℚ) : ℚ :=
  Rat.divInt (a.num * (b.den : Int) + b.num * (a.den : Int))
    ((a.den : Int) * (b.den : Int))

/-- JS number subtraction; proved equal to `(· - ·)` in `jsSub_eq`. -/
def jsSub (a b : ℚ) : ℚ :=
  Rat.divInt (a.num * (b.den : Int) - b.num * (a.den : Int))
    ((a.den : Int) * (b.den : Int))

/-- JS number multiplication; proved equal to `(· * ·)` in `jsMul_eq`. -/
def jsMul (a b : ℚ) : ℚ :=
  Rat.divInt (a.num * b.num) ((a.den : Int) * (b.den : Int))

/-- JS number division; proved equal to `(· / ·)` in `jsDiv_eq`. A zero
divisor yields `0` (JS yields an infinity there; no claim depends on the
quotient at a zero divisor). -/
def jsDiv (a b : ℚ) : ℚ :=
  Rat.divInt (a.num * (b.den : Int)) ((a.den : Int) * b.num)

namespace ObjModel

/-- JS `Number.MAX_VALUE` (1.7976931348623157e308), the seed of the extent
tracking in `OBJLoader.load`, as an exact rational (the integer literal is
17976931348623157 followed by 292 zeros, written out so that it reduces in
the kernel). -/
def numberMaxValue : ℚ := Rat.divInt 179769313486231570000000000000000000000000000000000000000000000000000000000000000000000000000000000000000000000000000000000000000000000000000000000000000000000000000000000000000000000000000000000000000000000000000000000000000000000000000000000000000000000000000000000000000000000000000000000000000000000000000 1

/-- A triple of coordinates (a JS array of three numbers). -/
structure Vec3 where
  x : ℚ
  y : ℚ
  z : ℚ
deriving DecidableEq

/-- One trimmed line of the OBJ source consumed by `OBJLoader.load`.
`vLine x y z` is a line passing `line.startsWith('v ')`, carrying the three
coordinates `parseVertex` reads from it (string-to-number parsing of the
coordinate tokens is abstracted); `fLine parts` is a line passing
`line.startsWith('f ')`, carrying the whitespace-separated tokens after the
leading `f` (the result of `face_string.split(/\s+/).slice(1)`); `other` is
any other line, which `load` ignores. -/
inductive ObjRecord where
  | vLine (x y z : ℚ)
  | fLine (parts : List String)
  | other
deriving DecidableEq

/-- Value of the longest run of leading decimal digits of a character list;
`none` when there is no leading digit (JS `parseInt` then yields `NaN`). -/
def digitsToNat (cs : List Char) : Option Nat :=
  let ds := cs.takeWhile Char.isDigit
  if ds.isEmpty then none
  else some (ds.foldl (fun a c => a * 10 + (c.toNat - 48)) 0)

/-- JS `parseInt` on the token shapes OBJ face references use: an optional
sign followed by decimal digits, ignoring any trailing garbage; `none`
models `NaN`. -/
def parseIntJS (cs : List Char) : Option Int :=
  match cs with
  | '-' :: rest => (digitsToNat rest).map (fun n => -(n : Int))
  | '+' :: rest => (digitsToNat rest).map (fun n => (n : Int))
  | _ => (digitsToNat cs).map (fun n => (n : Int))

/-- `part.split('/')[0]`: the characters of a face reference before its
first slash. -/
def leadingSlashField (part : String) : List Char :=
  part.data.takeWhile (fun c => c ≠ '/')

/-- The per-token step of `OBJLoader.parseFace`:
`parseInt(part.split('/')[0]) - 1`, converting the leading slash-field of a
face reference from a 1-based to a 0-based index. -/
def faceIndex (part : String) : Option Int :=
  (parseIntJS (leadingSlashField part)).map (fun k => k - 1)

/-- `OBJLoader.triangulateFace`: a quad `[v0, v1, v2, v3]` becomes the two
triangles `(v0, v1, v2)` and `(v0, v2, v3)`. -/
def triangulateFace (face : List (Option Int)) : List (Option Int) :=
  [face.getD 0 none, face.getD 1 none, face.getD 2 none,
   face.getD 0 none, face.getD 2 none, face.getD 3 none]

/-- `OBJLoader.parseFace` on the whitespace tokens after the leading `f`:
maps `faceIndex` over the tokens, emits 3 references directly, 4 via
`triangulateFace`, and throws `"Unsupported face format"` otherwise. -/
def parseFace (parts : List String) : Except String (List (Option Int)) :=
  let indices := parts.map faceIndex
  if indices.length = 3 then .ok indices
  else if indices.length = 4 then .ok (triangulateFace indices)
  else .error "Unsupported face format"

/-- The mutable state of the line loop in `OBJLoader.load`. -/
structure LoadState where
  vertices : List Vec3
  indices : List (Option Int)
  minExtent : Vec3
  maxExtent : Vec3
deriving DecidableEq

/-- Componentwise update of the running minimum extent. -/
def stepMin (m v : Vec3) : Vec3 :=
  ⟨min m.x v.x, min m.y v.y, min m.z v.z⟩

/-- Componentwise update of the running maximum extent. -/
def stepMax (m v : Vec3) : Vec3 :=
  ⟨max m.x v.x, max m.y v.y, max m.z v.z⟩

/-- The line loop of `OBJLoader.load`: vertex lines are appended to the
vertex list and folded into the extents, face lines are parsed by
`parseFace` and appended to the index list (a thrown error aborts the
whole loop), all other lines are skipped. -/
def loadLoop : List ObjRecord → LoadState → Except String LoadState
  | [], st => .ok st
  | .vLine x y z :: rest, st =>
      let v : Vec3 := ⟨x, y, z⟩
      loadLoop rest ⟨st.vertices ++ [v], st.indices,
        stepMin st.minExtent v, stepMax st.maxExtent v⟩
  | .fLine parts :: rest, st =>
      match parseFace parts with
      | .ok faceIndices => loadLoop rest
          ⟨st.vertices, st.indices ++ faceIndices, st.minExtent, st.maxExtent⟩
      | .error e => .error e
  | .other :: rest, st => loadLoop rest st

/-- The initial loop state of `OBJLoader.load`: empty buffers, extents
seeded with `±Number.MAX_VALUE`. -/
def initialState : LoadState :=
  ⟨[], [], ⟨numberMaxValue, numberMaxValue, numberMaxValue⟩,
   ⟨-numberMaxValue, -numberMaxValue, -numberMaxValue⟩⟩

/-- The per-vertex normalization in `OBJLoader.load`:
`vertices[i][j] = (vertices[i][j] + offset[j]) * scale`. -/
def normalizeVertex (offset : Vec3) (scale : ℚ) (v : Vec3) : Vec3 :=
  ⟨jsMul (jsAdd v.x offset.x) scale, jsMul (jsAdd v.y offset.y) scale,
   jsMul (jsAdd v.z offset.z) scale⟩

/-- `vertices.flat()`: flatten a list of coordinate triples to scalars. -/
def flattenVertices (vs : List Vec3) : List ℚ :=
  (vs.map (fun v => [v.x, v.y, v.z])).flatten

/-- `OBJLoader.load`: run the line loop from `initialState`, then compute
`scale = 2 / Math.max(dx, dy, dz)` and `offset[j] = -(max[j] + min[j]) / 2`
and normalize every vertex, returning the flattened vertex buffer and the
index buffer. -/
def load (lines : List ObjRecord) : Except String (List ℚ × List (Option Int)) :=
  match loadLoop lines initialState with
  | .error e => .error e
  | .ok st =>
      let scale : ℚ := jsDiv 2 (max (jsSub st.maxExtent.x st.minExtent.x)
        (max (jsSub st.maxExtent.y st.minExtent.y) (jsSub st.maxExtent.z st.minExtent.z)))
      let offset : Vec3 := ⟨jsDiv (-(jsAdd st.maxExtent.x st.minExtent.x)) 2,
        jsDiv (-(jsAdd st.maxExtent.y st.minExtent.y)) 2,
        jsDiv (-(jsAdd st.maxExtent.z st.minExtent.z)) 2⟩
      .ok (flattenVertices (st.vertices.map (normalizeVertex offset scale)), st.indices)

/-- The divisor of the `scale` computation in `OBJLoader.load` (the largest
per-axis difference of the tracked extents), read off the loop state; `0`
when the loop itself throws. -/
def normDivisor (lines : List ObjRecord) : ℚ :=
  match loadLoop lines initialState with
  | .ok st => max (jsSub st.maxExtent.x st.minExtent.x)
      (max (jsSub st.maxExtent.y st.minExtent.y) (jsSub st.maxExtent.z st.minExtent.z))
  | .error _ => 0

/-- Whether an `Except` value is a success. -/
def exceptIsOk {ε α : Type} : Except ε α → Bool
  | .ok _ => true
  | .error _ => false

/-- The vertex records of an OBJ source, in parse order. -/
def verticesOf : List ObjRecord → List Vec3
  | [] => []
  | .vLine x y z :: rest => ⟨x, y, z⟩ :: verticesOf rest
  | _ :: rest => verticesOf rest

/-- The face-emission-order concatenation of the parsed face records of an
OBJ source; an unsupported face aborts it with the thrown message. -/
def emittedIndices : List ObjRecord → Except String (List (Option Int))
  | [] => .ok []
  | .fLine parts :: rest =>
      match parseFace parts with
      | .ok f =>
          match emittedIndices rest with
          | .ok is => .ok (f ++ is)
          | .error e => .error e
      | .error e => .error e
  | _ :: rest => emittedIndices rest

/-- Minimum of a list of rationals (head-seeded; `0` for the empty list,
which is never used). -/
def listMin : List ℚ → ℚ
  | [] => 0
  | a :: l => l.foldl min a

/-- Maximum of a list of rationals (head-seeded; `0` for the empty list,
which is never used). -/
def listMax : List ℚ → ℚ
  | [] => 0
  | a :: l => l.foldl max a

/-- Smallest coordinate of a vertex list along the axis selected by `f`. -/
def axisMin (f : Vec3 → ℚ) (vs : List Vec3) : ℚ := listMin (vs.map f)

/-- Largest coordinate of a vertex list along the axis selected by `f`. -/
def axisMax (f : Vec3 → ℚ) (vs : List Vec3) : ℚ := listMax (vs.map f)

/-- Extent of a vertex list along the axis selected by `f`. -/
def axisSpan (f : Vec3 → ℚ) (vs : List Vec3) : ℚ :=
  jsSub (axisMax f vs) (axisMin f vs)

/-- Midpoint of the axis-aligned bounding box along the axis selected by
`f`. -/
def axisCenter (f : Vec3 → ℚ) (vs : List Vec3) : ℚ :=
  jsDiv (jsAdd (axisMax f vs) (axisMin f vs)) 2

/-- Largest per-axis extent of a vertex list. -/
def largestExtent (vs : List Vec3) : ℚ :=
  max (axisSpan Vec3.x vs) (max (axisSpan Vec3.y vs) (axisSpan Vec3.z vs))

/-- Modelled from the spec (§4.1): the uniform normalization scale factor,
`2 / (largest extent across the three axes)`. -/
def specScale (vs : List Vec3) : ℚ := jsDiv 2 (largestExtent vs)

/-- Modelled from the spec (§4.1): the per-axis center offset
`-(min + max) / 2`. -/
def specOffset (vs : List Vec3) : Vec3 :=
  ⟨jsDiv (-(jsAdd (axisMax Vec3.x vs) (axisMin Vec3.x vs))) 2,
   jsDiv (-(jsAdd (axisMax Vec3.y vs) (axisMin Vec3.y vs))) 2,
   jsDiv (-(jsAdd (axisMax Vec3.z vs) (axisMin Vec3.z vs))) 2⟩

/-- Modelled from the spec (§4.1): `(coordinate + offset) * scale` applied
to every vertex, in parse order, with no deduplication. -/
def specNormalized (vs : List Vec3) : List Vec3 :=
  vs.map (normalizeVertex (specOffset vs) (specScale vs))

end ObjModel

namespace SceneModel

mutual

/-- A node of the scenegraph (`SceneNode` and its subclass `ModelNode`
collapsed into one type, following the tagged-variant reading): `name` and
`nodeType` are the constructor arguments, `transformation` is the local
transform, `world_transformation` the cached world transform, `isModel`
tells whether the node is a `ModelNode`, `obj3dTransformation` models the
transformation stored in the owned `Object3D` (meaningful only when
`isModel` is `true`), and `children` the ordered child list. Transforms
live in an arbitrary type `M` (instantiated with a monoid for the
operations that multiply matrices). -/
inductive SceneNode (M : Type) : Type where
  | mk (name : String) (nodeType : String) (transformation : M)
      (world_transformation : M) (isModel : Bool) (obj3dTransformation : M)
      (children : SceneForest M) : SceneNode M

/-- An ordered list of scene nodes (the `children` array). -/
inductive SceneForest (M : Type) : Type where
  | nil : SceneForest M
  | cons : SceneNode M → SceneForest M → SceneForest M

end

/-- The `name` field of a node. -/
def SceneNode.name {M : Type} : SceneNode M → String
  | .mk n _ _ _ _ _ _ => n

/-- The `type` field of a node. -/
def SceneNode.nodeType {M : Type} : SceneNode M → String
  | .mk _ ty _ _ _ _ _ => ty

/-- The `transformation` field (local transform) of a node. -/
def SceneNode.transformation {M : Type} : SceneNode M → M
  | .mk _ _ t _ _ _ _ => t

/-- The cached `world_transformation` field of a node. -/
def SceneNode.world_transformation {M : Type} : SceneNode M → M
  | .mk _ _ _ w _ _ _ => w

/-- Whether the node is a `ModelNode`. -/
def SceneNode.isModel {M : Type} : SceneNode M → Bool
  | .mk _ _ _ _ b _ _ => b

/-- The transformation last pushed to the owned `Object3D` of a
`ModelNode`. -/
def SceneNode.obj3dTransformation {M : Type} : SceneNode M → M
  | .mk _ _ _ _ _ o _ => o

/-- The `children` field of a node. -/
def SceneNode.children {M : Type} : SceneNode M → SceneForest M
  | .mk _ _ _ _ _ _ c => c

/-- `SceneNode.getTransformationHierarchy`: pushes the node's own local
transform and then recurses into the parent, producing the local
transforms from the node up to the root. The parent chain is represented
by `ancestors`, the ancestor locals in node-to-root order. -/
def getTransformationHierarchy {M : Type} (selfTransformation : M)
    (ancestors : List M) : List M :=
  selfTransformation :: ancestors

/-- `SceneNode.calculateWorldTransformation`: reverse the hierarchy to
root-to-node order and left-fold `mat4.multiply` starting from
`mat4.create()` (the identity). -/
def calculateWorldTransformation {M : Type} [Monoid M]
    (selfTransformation : M) (ancestors : List M) : M :=
  ((getTransformationHierarchy selfTransformation ancestors).reverse).foldl
    (fun w t => w * t) 1

mutual

/-- `SceneNode.setTransformation` (with the `ModelNode` override folded
in): store the new local transform, recursively re-set every child with
its own unchanged local transform, recompute the cached world transform
from the (updated) ancestor chain, and — for a `ModelNode` — push the
refreshed world transform to the owned `Object3D`. `ancestors` is the
list of local transforms of the node's ancestors in node-to-root order
(already reflecting any update higher up, exactly as the walk up the
parent pointers would see it). -/
def setTransformation {M : Type} [Monoid M] (ancestors : List M) (t : M) :
    SceneNode M → SceneNode M
  | .mk nm ty _ _ isM objT ch =>
      let newChildren := setChildrenTransformations (t :: ancestors) ch
      let w := calculateWorldTransformation t ancestors
      .mk nm ty t w isM (if isM then w else objT) newChildren

/-- The `for (let child of this.children) child.setTransformation(child.transformation)`
loop of `SceneNode.setTransformation`. -/
def setChildrenTransformations {M : Type} [Monoid M] (ancestors : List M) :
    SceneForest M → SceneForest M
  | .nil => .nil
  | .cons c cs =>
      .cons (setTransformation ancestors c.transformation c)
        (setChildrenTransformations ancestors cs)

end

mutual

/-- `SceneNode.getNodes(nodes)`: push the node itself, then let each child
push its own subtree, threading the accumulator. -/
def getNodes {M : Type} (nodes : List (SceneNode M)) :
    SceneNode M → List (SceneNode M)
  | .mk nm ty t w isM objT ch =>
      getNodesForest (nodes ++ [SceneNode.mk nm ty t w isM objT ch]) ch

/-- The `for (let child of this.children) child.getNodes(nodes)` loop of
`SceneNode.getNodes`. -/
def getNodesForest {M : Type} (nodes : List (SceneNode M)) :
    SceneForest M → List (SceneNode M)
  | .nil => nodes
  | .cons c cs => getNodesForest (getNodes nodes c) cs

end

mutual

/-- `SceneNode.getNode(name)`: return the node itself on a name match,
otherwise the first non-null result among the children, else null. -/
def getNode {M : Type} (name : String) :
    SceneNode M → Option (SceneNode M)
  | .mk nm ty t w isM objT ch =>
      if nm = name then some (SceneNode.mk nm ty t w isM objT ch)
      else getNodeForest name ch

/-- The child loop of `SceneNode.getNode`. -/
def getNodeForest {M : Type} (name : String) :
    SceneForest M → Option (SceneNode M)
  | .nil => none
  | .cons c cs =>
      match getNode name c with
      | some n => some n
      | none => getNodeForest name cs

end

/-- `Scene.getNodes()`: `this.scenegraph.getNodes([])`. -/
def sceneGetNodes {M : Type} (root : SceneNode M) : List (SceneNode M) :=
  getNodes [] root

/-- `Scene.getNode(name)`: delegate to the root's `getNode` and convert a
null result into the thrown not-found error. -/
def sceneGetNode {M : Type} (root : SceneNode M) (name : String) :
    Except String (SceneNode M) :=
  match getNode name root with
  | some n => .ok n
  | none => .error ("Node \"" ++ name ++ "\" not found in scenegraph")

mutual

/-- Depth-first pre-order listing of a subtree: self before children,
children in declaration order. -/
def preorder {M : Type} : SceneNode M → List (SceneNode M)
  | .mk nm ty t w isM objT ch =>
      SceneNode.mk nm ty t w isM objT ch :: preorderForest ch

/-- Pre-order listing of a forest. -/
def preorderForest {M : Type} : SceneForest M → List (SceneNode M)
  | .nil => []
  | .cons c cs => preorder c ++ preorderForest cs

end

mutual

/-- Number of nodes in a subtree. -/
def size {M : Type} : SceneNode M → Nat
  | .mk _ _ _ _ _ _ ch => 1 + sizeForest ch

/-- Number of nodes in a forest. -/
def sizeForest {M : Type} : SceneForest M → Nat
  | .nil => 0
  | .cons c cs => size c + sizeForest cs

end

mutual

/-- Pre-order listing of the local transforms of a subtree. -/
def localsList {M : Type} : SceneNode M → List M
  | .mk _ _ t _ _ _ ch => t :: localsListForest ch

/-- Pre-order listing of the local transforms of a forest. -/
def localsListForest {M : Type} : SceneForest M → List M
  | .nil => []
  | .cons c cs => localsList c ++ localsListForest cs

end

mutual

/-- Pre-order listing of the names of a subtree. -/
def namesList {M : Type} : SceneNode M → List String
  | .mk nm _ _ _ _ _ ch => nm :: namesListForest ch

/-- Pre-order listing of the names of a forest. -/
def namesListForest {M : Type} : SceneForest M → List String
  | .nil => []
  | .cons c cs => namesList c ++ namesListForest cs

end

mutual

/-- The fresh-recomputation check of the world-transform invariant: given
the product `p` of the locals of all strict ancestors in root-to-node
order, the cached world transform must equal `p * local`, recursively in
the whole subtree. -/
def checkInvariant {M : Type} [Monoid M] [DecidableEq M] (p : M) :
    SceneNode M → Bool
  | .mk _ _ t w _ _ ch =>
      (decide (w = p * t)) && checkInvariantForest (p * t) ch

/-- Forest version of `checkInvariant`. -/
def checkInvariantForest {M : Type} [Monoid M] [DecidableEq M] (p : M) :
    SceneForest M → Bool
  | .nil => true
  | .cons c cs => checkInvariant p c && checkInvariantForest p cs

end

mutual

/-- Checks that every `ModelNode` of a subtree has pushed its cached world
transform to its owned `Object3D`. -/
def checkObjSync {M : Type} [DecidableEq M] : SceneNode M → Bool
  | .mk _ _ _ w isM objT ch =>
      (if isM then decide (objT = w) else true) && checkObjSyncForest ch

/-- Forest version of `checkObjSync`. -/
def checkObjSyncForest {M : Type} [DecidableEq M] : SceneForest M → Bool
  | .nil => true
  | .cons c cs => checkObjSync c && checkObjSyncForest cs

end

/-- Product of an ancestor chain (node-to-root order) taken in
root-to-node order, as `calculateWorldTransformation` computes it for the
part of the hierarchy above the node. -/
def prodRev {M : Type} [Monoid M] (ancestors : List M) : M :=
  ancestors.reverse.foldl (fun w t => w * t) 1

mutual

/-- Harness for "a `setTransformation` call on any node of the tree": walk
down the child indices in `path` (collecting the traversed locals into the
ancestor chain) and call `setTransformation` with the new transform `t` on
the node the path leads to; an out-of-range path leaves the tree
unchanged. -/
def setTransformationAt {M : Type} [Monoid M] (ancestors : List M) (t : M) :
    List Nat → SceneNode M → SceneNode M
  | [], n => setTransformation ancestors t n
  | i :: rest, .mk nm ty tr w isM objT ch =>
      .mk nm ty tr w isM objT
        (setTransformationAtForest (tr :: ancestors) t i rest ch)

/-- Forest version of `setTransformationAt`: descend into the `i`-th
child. -/
def setTransformationAtForest {M : Type} [Monoid M] (ancestors : List M)
    (t : M) : Nat → List Nat → SceneForest M → SceneForest M
  | _, _, .nil => .nil
  | 0, rest, .cons c cs => .cons (setTransformationAt ancestors t rest c) cs
  | i + 1, rest, .cons c cs =>
      .cons c (setTransformationAtForest ancestors t i rest cs)

end

end SceneModel

namespace SceneModel

/-- A loaded mesh: the pair `[vertices, indices]` returned by
`OBJLoader.load`. -/
structure Mesh where
  vertices : List ℚ
  indices : List (Option Int)
deriving DecidableEq

/-- An `Object3D` as far as the scene cares: it wraps the mesh buffers it
was constructed from. -/
structure Object3D where
  mesh : Mesh
deriving DecidableEq

/-- A thrown JS value: either an explicitly thrown template string or a
runtime `TypeError`. -/
inductive JsError where
  | thrown (msg : String)
  | typeError (msg : String)
deriving DecidableEq

/-- JS property lookup `table[key]` on the model table (later assignments
to the same key overwrite earlier ones). -/
def jsObjectGet {α : Type} (table : List (String × α)) (key : String) :
    Option α :=
  table.reverse.lookup key

/-- JS `key in table` on the model table. -/
def jsObjectHasKey {α : Type} (table : List (String × α)) (key : String) :
    Bool :=
  (table.map Prod.fst).contains key

/-- JS truthiness of a string: only the empty string is falsy. -/
def jsTruthyString (s : String) : Bool := !s.isEmpty

/-- JS coercion of a boolean to a property key, as performed by the `in`
operator. -/
def jsBoolToPropertyKey (b : Bool) : String := if b then "true" else "false"

/-- `Scene.instantiateModel`: the source condition `!name in this.models`
parses as `(!name) in this.models` — the negated truthiness of `name` is
coerced to the property key `"true"`/`"false"` and looked up in the model
table. When the guard does not fire, `this.models[name]` is destructured
into `[vertices, indices]`; destructuring `undefined` (an absent key)
throws a `TypeError`. -/
def instantiateModel (models : List (String × Mesh)) (name : String) :
    Except JsError Object3D :=
  if jsObjectHasKey models (jsBoolToPropertyKey (!jsTruthyString name)) then
    .error (.thrown ("Unable to find model \"" ++ name ++
      "\" requested by scenengraph"))
  else
    match jsObjectGet models name with
    | some mesh => .ok ⟨mesh⟩
    | none => .error (.typeError "undefined is not iterable")

end SceneModel

/-! ## Arithmetic equivalence lemmas -/

theorem jsAdd_eq (a b : ℚ) : jsAdd a b = a + b := by
  have had : ((a.den : Int) : ℚ) ≠ 0 := by
    exact_mod_cast (Int.natCast_ne_zero).mpr a.den_nz
  have hbd : ((b.den : Int) : ℚ) ≠ 0 := by
    exact_mod_cast (Int.natCast_ne_zero).mpr b.den_nz
  rw [jsAdd, Rat.divInt_eq_div]
  conv_rhs => rw [← Rat.num_div_den a, ← Rat.num_div_den b]
  push_cast
  field_simp

theorem jsSub_eq (a b : ℚ) : jsSub a b = a - b := by
  have had : ((a.den : Int) : ℚ) ≠ 0 := by
    exact_mod_cast (Int.natCast_ne_zero).mpr a.den_nz
  have hbd : ((b.den : Int) : ℚ) ≠ 0 := by
    exact_mod_cast (Int.natCast_ne_zero).mpr b.den_nz
  rw [jsSub, Rat.divInt_eq_div]
  conv_rhs => rw [← Rat.num_div_den a, ← Rat.num_div_den b]
  push_cast
  field_simp
  ring

theorem jsMul_eq (a b : ℚ) : jsMul a b = a * b := by
  have had : ((a.den : Int) : ℚ) ≠ 0 := by
    exact_mod_cast (Int.natCast_ne_zero).mpr a.den_nz
  have hbd : ((b.den : Int) : ℚ) ≠ 0 := by
    exact_mod_cast (Int.natCast_ne_zero).mpr b.den_nz
  rw [jsMul, Rat.divInt_eq_div]
  conv_rhs => rw [← Rat.num_div_den a, ← Rat.num_div_den b]
  push_cast
  field_simp

theorem jsDiv_eq (a b : ℚ) : jsDiv a b = a / b := by
  rw [jsDiv, Rat.divInt_eq_div]
  rcases eq_or_ne b 0 with hb | hb
  · subst hb; simp
  · have hbn : (b.num : ℚ) ≠ 0 := by exact_mod_cast Rat.num_ne_zero.mpr hb
    have had : ((a.den : Int) : ℚ) ≠ 0 := by
      exact_mod_cast (Int.natCast_ne_zero).mpr a.den_nz
    have hbd : ((b.den : Int) : ℚ) ≠ 0 := by
      exact_mod_cast (Int.natCast_ne_zero).mpr b.den_nz
    conv_rhs => rw [← Rat.num_div_den a, ← Rat.num_div_den b]
    push_cast
    field_simp

theorem numberMaxValue_pos : 0 < ObjModel.numberMaxValue := by decide

/-! ## OBJ loader lemmas -/

namespace ObjModel

theorem parseFace_three (a b c : String) :
    parseFace [a, b, c] = .ok [faceIndex a, faceIndex b, faceIndex c] := rfl

theorem parseFace_four (a b c d : String) :
    parseFace [a, b, c, d] =
      .ok [faceIndex a, faceIndex b, faceIndex c,
           faceIndex a, faceIndex c, faceIndex d] := rfl

theorem parseFace_ok_arity {parts : List String} {is : List (Option Int)}
    (h : parseFace parts = .ok is) : parts.length = 3 ∨ parts.length = 4 := by
  simp only [parseFace] at h
  split_ifs at h with h3 h4
  · exact Or.inl (by simpa using h3)
  · exact Or.inr (by simpa using h4)

theorem parseFace_error_msg {parts : List String} {e : String}
    (h : parseFace parts = .error e) : e = "Unsupported face format" := by
  simp only [parseFace] at h
  split_ifs at h
  simpa [eq_comm] using h

theorem parseFace_bad_arity {parts : List String}
    (h3 : parts.length ≠ 3) (h4 : parts.length ≠ 4) :
    parseFace parts = .error "Unsupported face format" := by
  simp only [parseFace]
  rw [if_neg (by simpa using h3), if_neg (by simpa using h4)]

theorem loadLoop_ok : ∀ (lines : List ObjRecord) (st st' : LoadState),
    loadLoop lines st = .ok st' →
    ∃ is, emittedIndices lines = .ok is ∧
      st' = ⟨st.vertices ++ verticesOf lines, st.indices ++ is,
        (verticesOf lines).foldl stepMin st.minExtent,
        (verticesOf lines).foldl stepMax st.maxExtent⟩
  | [], st, st', h => by
      refine ⟨[], rfl, ?_⟩
      simp only [loadLoop, Except.ok.injEq] at h
      simp [verticesOf, ← h]
  | .vLine x y z :: rest, st, st', h => by
      simp only [loadLoop] at h
      obtain ⟨is, h1, h2⟩ := loadLoop_ok rest _ st' h
      refine ⟨is, h1, ?_⟩
      simpa [verticesOf, List.append_assoc] using h2
  | .fLine parts :: rest, st, st', h => by
      cases hp : parseFace parts with
      | error e => simp [loadLoop, hp] at h
      | ok f =>
          simp only [loadLoop, hp] at h
          obtain ⟨is, h1, h2⟩ := loadLoop_ok rest _ st' h
          refine ⟨f ++ is, ?_, ?_⟩
          · simp [emittedIndices, hp, h1]
          · simpa [verticesOf, List.append_assoc] using h2
  | .other :: rest, st, st', h => by
      simp only [loadLoop] at h
      obtain ⟨is, h1, h2⟩ := loadLoop_ok rest _ st' h
      refine ⟨is, ?_, ?_⟩
      · simpa [emittedIndices] using h1
      · simpa [verticesOf] using h2

theorem loadLoop_bad_face : ∀ (lines : List ObjRecord) (st : LoadState)
    (parts : List String), ObjRecord.fLine parts ∈ lines →
    parts.length ≠ 3 → parts.length ≠ 4 →
    loadLoop lines st = .error "Unsupported face format"
  | [], _, _, hmem, _, _ => absurd hmem (List.not_mem_nil _)
  | .vLine x y z :: rest, st, parts, hmem, h3, h4 => by
      have hm : ObjRecord.fLine parts ∈ rest := by
        rcases List.mem_cons.mp hmem with h | h
        · exact absurd h (by simp)
        · exact h
      simpa [loadLoop] using loadLoop_bad_face rest _ parts hm h3 h4
  | .fLine q :: rest, st, parts, hmem, h3, h4 => by
      cases hp : parseFace q with
      | error e =>
          have he := parseFace_error_msg hp
          simp [loadLoop, hp, he]
      | ok f =>
          have hm : ObjRecord.fLine parts ∈ rest := by
            rcases List.mem_cons.mp hmem with h | h
            · obtain rfl : parts = q := by
                simpa using h
              rcases parseFace_ok_arity hp with ha | ha
              · exact absurd ha h3
              · exact absurd ha h4
            · exact h
          simp only [loadLoop, hp]
          exact loadLoop_bad_face rest _ parts hm h3 h4
  | .other :: rest, st, parts, hmem, h3, h4 => by
      have hm : ObjRecord.fLine parts ∈ rest := by
        rcases List.mem_cons.mp hmem with h | h
        · exact absurd h (by simp)
        · exact h
      simpa [loadLoop] using loadLoop_bad_face rest _ parts hm h3 h4

theorem loadLoop_no_face : ∀ (lines : List ObjRecord) (st : LoadState),
    (∀ parts, ObjRecord.fLine parts ∉ lines) →
    ∃ st', loadLoop lines st = .ok st'
  | [], st, _ => ⟨st, rfl⟩
  | .vLine x y z :: rest, st, h => by
      have h2 : ∀ parts, ObjRecord.fLine parts ∉ rest := fun parts hc =>
        h parts (List.mem_cons_of_mem _ hc)
      obtain ⟨st', hst⟩ := loadLoop_no_face rest _ h2
      exact ⟨st', by simpa [loadLoop] using hst⟩
  | .fLine q :: rest, st, h => absurd (List.mem_cons_self _ _) (h q)
  | .other :: rest, st, h => by
      have h2 : ∀ parts, ObjRecord.fLine parts ∉ rest := fun parts hc =>
        h parts (List.mem_cons_of_mem _ hc)
      obtain ⟨st', hst⟩ := loadLoop_no_face rest _ h2
      exact ⟨st', by simpa [loadLoop] using hst⟩

end ObjModel

namespace ObjModel

theorem min_add_right_q (a b o : ℚ) : min (a + o) (b + o) = min a b + o := by
  rcases le_total a b with h | h
  · rw [min_eq_left h, min_eq_left (by linarith)]
  · rw [min_eq_right h, min_eq_right (by linarith)]

theorem max_add_right_q (a b o : ℚ) : max (a + o) (b + o) = max a b + o := by
  rcases le_total a b with h | h
  · rw [max_eq_right h, max_eq_right (by linarith)]
  · rw [max_eq_left h, max_eq_left (by linarith)]

theorem min_mul_right_q (a b s : ℚ) (hs : 0 ≤ s) :
    min (a * s) (b * s) = min a b * s := (min_mul_of_nonneg a b hs).symm

theorem max_mul_right_q (a b s : ℚ) (hs : 0 ≤ s) :
    max (a * s) (b * s) = max a b * s := (max_mul_of_nonneg a b hs).symm

theorem foldl_min_out : ∀ (l : List ℚ) (a b : ℚ),
    l.foldl min (min a b) = min a (l.foldl min b)
  | [], a, b => by simp
  | c :: t, a, b => by
      simp only [List.foldl_cons]
      rw [min_assoc]
      exact foldl_min_out t a (min b c)

theorem foldl_max_out : ∀ (l : List ℚ) (a b : ℚ),
    l.foldl max (max a b) = max a (l.foldl max b)
  | [], a, b => by simp
  | c :: t, a, b => by
      simp only [List.foldl_cons]
      rw [max_assoc]
      exact foldl_max_out t a (max b c)

theorem foldl_min_le : ∀ (l : List ℚ) (b : ℚ), l.foldl min b ≤ b
  | [], b => le_refl b
  | c :: t, b => by
      simp only [List.foldl_cons]
      exact le_trans (foldl_min_le t (min b c)) (min_le_left b c)

theorem le_foldl_max : ∀ (l : List ℚ) (b : ℚ), b ≤ l.foldl max b
  | [], b => le_refl b
  | c :: t, b => by
      simp only [List.foldl_cons]
      exact le_trans (le_max_left b c) (le_foldl_max t (max b c))

theorem seeded_min_eq {l : List ℚ} (s : ℚ) (hne : l ≠ [])
    (hb : ∀ q ∈ l, q ≤ s) : l.foldl min s = listMin l := by
  cases l with
  | nil => exact absurd rfl hne
  | cons c t =>
      simp only [List.foldl_cons, listMin]
      rw [foldl_min_out]
      exact min_eq_right (le_trans (foldl_min_le t c)
        (hb c (List.mem_cons_self c t)))

theorem seeded_max_eq {l : List ℚ} (s : ℚ) (hne : l ≠ [])
    (hb : ∀ q ∈ l, s ≤ q) : l.foldl max s = listMax l := by
  cases l with
  | nil => exact absurd rfl hne
  | cons c t =>
      simp only [List.foldl_cons, listMax]
      rw [foldl_max_out]
      exact max_eq_right (le_trans (hb c (List.mem_cons_self c t))
        (le_foldl_max t c))

theorem foldl_min_affine (o s : ℚ) (hs : 0 ≤ s) :
    ∀ (l : List ℚ) (a : ℚ),
    (l.map (fun q => (q + o) * s)).foldl min ((a + o) * s) =
      (l.foldl min a + o) * s
  | [], a => by simp
  | c :: t, a => by
      simp only [List.map_cons, List.foldl_cons]
      rw [min_mul_right_q _ _ _ hs, min_add_right_q]
      exact foldl_min_affine o s hs t (min a c)

theorem foldl_max_affine (o s : ℚ) (hs : 0 ≤ s) :
    ∀ (l : List ℚ) (a : ℚ),
    (l.map (fun q => (q + o) * s)).foldl max ((a + o) * s) =
      (l.foldl max a + o) * s
  | [], a => by simp
  | c :: t, a => by
      simp only [List.map_cons, List.foldl_cons]
      rw [max_mul_right_q _ _ _ hs, max_add_right_q]
      exact foldl_max_affine o s hs t (max a c)

theorem listMin_affine (o s : ℚ) (hs : 0 ≤ s) {l : List ℚ} (hne : l ≠ []) :
    listMin (l.map (fun q => (q + o) * s)) = (listMin l + o) * s := by
  cases l with
  | nil => exact absurd rfl hne
  | cons c t =>
      simp only [List.map_cons, listMin]
      exact foldl_min_affine o s hs t c

theorem listMax_affine (o s : ℚ) (hs : 0 ≤ s) {l : List ℚ} (hne : l ≠ []) :
    listMax (l.map (fun q => (q + o) * s)) = (listMax l + o) * s := by
  cases l with
  | nil => exact absurd rfl hne
  | cons c t =>
      simp only [List.map_cons, listMax]
      exact foldl_max_affine o s hs t c

theorem foldl_stepMin_proj (f : Vec3 → ℚ)
    (hf : ∀ a b : Vec3, f (stepMin a b) = min (f a) (f b)) :
    ∀ (l : List Vec3) (m : Vec3),
    f (l.foldl stepMin m) = (l.map f).foldl min (f m)
  | [], _ => rfl
  | c :: t, m => by
      simp only [List.foldl_cons, List.map_cons]
      rw [foldl_stepMin_proj f hf t _, hf]

theorem foldl_stepMax_proj (f : Vec3 → ℚ)
    (hf : ∀ a b : Vec3, f (stepMax a b) = max (f a) (f b)) :
    ∀ (l : List Vec3) (m : Vec3),
    f (l.foldl stepMax m) = (l.map f).foldl max (f m)
  | [], _ => rfl
  | c :: t, m => by
      simp only [List.foldl_cons, List.map_cons]
      rw [foldl_stepMax_proj f hf t _, hf]

end ObjModel

namespace ObjModel

theorem load_ok_decomp {lines : List ObjRecord} {V : List ℚ}
    {I : List (Option Int)} (h : load lines = .ok (V, I)) :
    ∃ st, loadLoop lines initialState = .ok st ∧
      I = st.indices ∧
      V = flattenVertices (st.vertices.map (normalizeVertex
        ⟨jsDiv (-(jsAdd st.maxExtent.x st.minExtent.x)) 2,
         jsDiv (-(jsAdd st.maxExtent.y st.minExtent.y)) 2,
         jsDiv (-(jsAdd st.maxExtent.z st.minExtent.z)) 2⟩
        (jsDiv 2 (max (jsSub st.maxExtent.x st.minExtent.x)
          (max (jsSub st.maxExtent.y st.minExtent.y)
            (jsSub st.maxExtent.z st.minExtent.z)))))) := by
  unfold load at h
  cases hl : loadLoop lines initialState with
  | error e => rw [hl] at h; cases h
  | ok st =>
      rw [hl] at h
      simp only [Except.ok.injEq, Prod.mk.injEq] at h
      exact ⟨st, rfl, h.2.symm, h.1.symm⟩

theorem load_extents {lines : List ObjRecord} {st : LoadState}
    (hl : loadLoop lines initialState = .ok st)
    (hne : verticesOf lines ≠ [])
    (hb : ∀ v ∈ verticesOf lines,
      -numberMaxValue ≤ v.x ∧ v.x ≤ numberMaxValue ∧
      -numberMaxValue ≤ v.y ∧ v.y ≤ numberMaxValue ∧
      -numberMaxValue ≤ v.z ∧ v.z ≤ numberMaxValue) :
    st.vertices = verticesOf lines ∧
    st.minExtent.x = axisMin Vec3.x (verticesOf lines) ∧
    st.minExtent.y = axisMin Vec3.y (verticesOf lines) ∧
    st.minExtent.z = axisMin Vec3.z (verticesOf lines) ∧
    st.maxExtent.x = axisMax Vec3.x (verticesOf lines) ∧
    st.maxExtent.y = axisMax Vec3.y (verticesOf lines) ∧
    st.maxExtent.z = axisMax Vec3.z (verticesOf lines) := by
  obtain ⟨is, _, hst⟩ := loadLoop_ok lines initialState st hl
  subst hst
  have hmapne : ∀ f : Vec3 → ℚ, (verticesOf lines).map f ≠ [] := by
    intro f hmap
    exact hne (List.map_eq_nil_iff.mp hmap)
  refine ⟨by simp [initialState], ?_, ?_, ?_, ?_, ?_, ?_⟩
  · rw [foldl_stepMin_proj Vec3.x (fun a b => rfl)]
    show ((verticesOf lines).map Vec3.x).foldl min numberMaxValue = _
    rw [seeded_min_eq numberMaxValue (hmapne Vec3.x)]
    · rfl
    · intro q hq
      obtain ⟨v, hv, rfl⟩ := List.mem_map.mp hq
      exact (hb v hv).2.1
  · rw [foldl_stepMin_proj Vec3.y (fun a b => rfl)]
    show ((verticesOf lines).map Vec3.y).foldl min numberMaxValue = _
    rw [seeded_min_eq numberMaxValue (hmapne Vec3.y)]
    · rfl
    · intro q hq
      obtain ⟨v, hv, rfl⟩ := List.mem_map.mp hq
      exact (hb v hv).2.2.2.1
  · rw [foldl_stepMin_proj Vec3.z (fun a b => rfl)]
    show ((verticesOf lines).map Vec3.z).foldl min numberMaxValue = _
    rw [seeded_min_eq numberMaxValue (hmapne Vec3.z)]
    · rfl
    · intro q hq
      obtain ⟨v, hv, rfl⟩ := List.mem_map.mp hq
      exact (hb v hv).2.2.2.2.2
  · rw [foldl_stepMax_proj Vec3.x (fun a b => rfl)]
    show ((verticesOf lines).map Vec3.x).foldl max (-numberMaxValue) = _
    rw [seeded_max_eq (-numberMaxValue) (hmapne Vec3.x)]
    · rfl
    · intro q hq
      obtain ⟨v, hv, rfl⟩ := List.mem_map.mp hq
      exact (hb v hv).1
  · rw [foldl_stepMax_proj Vec3.y (fun a b => rfl)]
    show ((verticesOf lines).map Vec3.y).foldl max (-numberMaxValue) = _
    rw [seeded_max_eq (-numberMaxValue) (hmapne Vec3.y)]
    · rfl
    · intro q hq
      obtain ⟨v, hv, rfl⟩ := List.mem_map.mp hq
      exact (hb v hv).2.2.1
  · rw [foldl_stepMax_proj Vec3.z (fun a b => rfl)]
    show ((verticesOf lines).map Vec3.z).foldl max (-numberMaxValue) = _
    rw [seeded_max_eq (-numberMaxValue) (hmapne Vec3.z)]
    · rfl
    · intro q hq
      obtain ⟨v, hv, rfl⟩ := List.mem_map.mp hq
      exact (hb v hv).2.2.2.2.1

end ObjModel

namespace ObjModel

theorem normalizeVertex_x (off : Vec3) (s : ℚ) (v : Vec3) :
    (normalizeVertex off s v).x = (v.x + off.x) * s := by
  simp [normalizeVertex, jsMul_eq, jsAdd_eq]

theorem normalizeVertex_y (off : Vec3) (s : ℚ) (v : Vec3) :
    (normalizeVertex off s v).y = (v.y + off.y) * s := by
  simp [normalizeVertex, jsMul_eq, jsAdd_eq]

theorem normalizeVertex_z (off : Vec3) (s : ℚ) (v : Vec3) :
    (normalizeVertex off s v).z = (v.z + off.z) * s := by
  simp [normalizeVertex, jsMul_eq, jsAdd_eq]

theorem axis_norm_min_max (f : Vec3 → ℚ) {vs : List Vec3} (hne : vs ≠ [])
    (s : ℚ) (hs : 0 ≤ s) (off : Vec3)
    (hproj : ∀ v, f (normalizeVertex off s v) = (f v + f off) * s) :
    axisMin f (vs.map (normalizeVertex off s)) = (axisMin f vs + f off) * s ∧
    axisMax f (vs.map (normalizeVertex off s)) = (axisMax f vs + f off) * s := by
  have hmapne : vs.map f ≠ [] := by
    intro hmap
    exact hne (List.map_eq_nil_iff.mp hmap)
  have hmm : (vs.map (normalizeVertex off s)).map f =
      (vs.map f).map (fun q => (q + f off) * s) := by
    rw [List.map_map, List.map_map]
    exact List.map_congr_left (fun v _ => hproj v)
  constructor
  · rw [axisMin, hmm, listMin_affine _ _ hs hmapne]
    rfl
  · rw [axisMax, hmm, listMax_affine _ _ hs hmapne]
    rfl

end ObjModel

namespace ObjModel

theorem specScale_nonneg {vs : List Vec3} (hpos : 0 < largestExtent vs) :
    0 ≤ specScale vs := by
  rw [specScale, jsDiv_eq]
  exact le_of_lt (div_pos two_pos hpos)

theorem specNormalized_extent_center {vs : List Vec3} (hne : vs ≠ [])
    (hpos : 0 < largestExtent vs) :
    largestExtent (specNormalized vs) = 2 ∧
    axisCenter Vec3.x (specNormalized vs) = 0 ∧
    axisCenter Vec3.y (specNormalized vs) = 0 ∧
    axisCenter Vec3.z (specNormalized vs) = 0 := by
  have hs : 0 ≤ specScale vs := specScale_nonneg hpos
  obtain ⟨hminx, hmaxx⟩ := axis_norm_min_max Vec3.x hne (specScale vs) hs
    (specOffset vs) (fun v => normalizeVertex_x _ _ _)
  obtain ⟨hminy, hmaxy⟩ := axis_norm_min_max Vec3.y hne (specScale vs) hs
    (specOffset vs) (fun v => normalizeVertex_y _ _ _)
  obtain ⟨hminz, hmaxz⟩ := axis_norm_min_max Vec3.z hne (specScale vs) hs
    (specOffset vs) (fun v => normalizeVertex_z _ _ _)
  have hoffx : Vec3.x (specOffset vs) =
      -(axisMax Vec3.x vs + axisMin Vec3.x vs) / 2 := by
    simp [specOffset, jsDiv_eq, jsAdd_eq]
  have hoffy : Vec3.y (specOffset vs) =
      -(axisMax Vec3.y vs + axisMin Vec3.y vs) / 2 := by
    simp [specOffset, jsDiv_eq, jsAdd_eq]
  have hoffz : Vec3.z (specOffset vs) =
      -(axisMax Vec3.z vs + axisMin Vec3.z vs) / 2 := by
    simp [specOffset, jsDiv_eq, jsAdd_eq]
  have hspanx : axisSpan Vec3.x (specNormalized vs) =
      axisSpan Vec3.x vs * specScale vs := by
    rw [axisSpan, jsSub_eq, specNormalized, hmaxx, hminx, axisSpan, jsSub_eq]
    ring
  have hspany : axisSpan Vec3.y (specNormalized vs) =
      axisSpan Vec3.y vs * specScale vs := by
    rw [axisSpan, jsSub_eq, specNormalized, hmaxy, hminy, axisSpan, jsSub_eq]
    ring
  have hspanz : axisSpan Vec3.z (specNormalized vs) =
      axisSpan Vec3.z vs * specScale vs := by
    rw [axisSpan, jsSub_eq, specNormalized, hmaxz, hminz, axisSpan, jsSub_eq]
    ring
  refine ⟨?_, ?_, ?_, ?_⟩
  · show max (axisSpan Vec3.x (specNormalized vs))
      (max (axisSpan Vec3.y (specNormalized vs))
        (axisSpan Vec3.z (specNormalized vs))) = 2
    rw [hspanx, hspany, hspanz, max_mul_right_q _ _ _ hs, max_mul_right_q _ _ _ hs]
    show largestExtent vs * specScale vs = 2
    rw [specScale, jsDiv_eq, mul_comm, div_mul_cancel₀ 2 (ne_of_gt hpos)]
  · rw [axisCenter, jsDiv_eq, jsAdd_eq, specNormalized, hmaxx, hminx, hoffx]
    ring
  · rw [axisCenter, jsDiv_eq, jsAdd_eq, specNormalized, hmaxy, hminy, hoffy]
    ring
  · rw [axisCenter, jsDiv_eq, jsAdd_eq, specNormalized, hmaxz, hminz, hoffz]
    ring

end ObjModel

namespace ObjModel

theorem verticesOf_replicate (n : Nat) (x y z : ℚ) :
    verticesOf (List.replicate n (ObjRecord.vLine x y z)) =
      List.replicate n (⟨x, y, z⟩ : Vec3) := by
  induction n with
  | zero => rfl
  | succ k ih => simp [List.replicate_succ, verticesOf, ih]

theorem foldl_min_replicate_self : ∀ (n : Nat) (q : ℚ),
    (List.replicate n q).foldl min q = q
  | 0, q => rfl
  | n + 1, q => by
      simp only [List.replicate_succ, List.foldl_cons, min_self]
      exact foldl_min_replicate_self n q

theorem foldl_max_replicate_self : ∀ (n : Nat) (q : ℚ),
    (List.replicate n q).foldl max q = q
  | 0, q => rfl
  | n + 1, q => by
      simp only [List.replicate_succ, List.foldl_cons, max_self]
      exact foldl_max_replicate_self n q

theorem listMin_replicate (n : Nat) (q : ℚ) :
    listMin (List.replicate (n + 1) q) = q := by
  simp only [List.replicate_succ, listMin]
  exact foldl_min_replicate_self n q

theorem listMax_replicate (n : Nat) (q : ℚ) :
    listMax (List.replicate (n + 1) q) = q := by
  simp only [List.replicate_succ, listMax]
  exact foldl_max_replicate_self n q

/-- C3: for a mesh source with at least one vertex and a strictly positive
largest axis extent (all coordinates within the float range), `load`
returns exactly the vertices in parse order, each coordinate transformed by
`(coordinate + offset) * scale` with `scale = 2 / largest extent` and
per-axis `offset = -(min + max) / 2`, with no deduplication; the resulting
buffer has largest per-axis span exactly 2 and its bounding-box center at
the origin on every axis. -/
theorem load_normalization (lines : List ObjRecord) (V : List ℚ)
    (I : List (Option Int)) (h : load lines = .ok (V, I))
    (hne : verticesOf lines ≠ [])
    (hb : ∀ v ∈ verticesOf lines,
      -numberMaxValue ≤ v.x ∧ v.x ≤ numberMaxValue ∧
      -numberMaxValue ≤ v.y ∧ v.y ≤ numberMaxValue ∧
      -numberMaxValue ≤ v.z ∧ v.z ≤ numberMaxValue)
    (hpos : 0 < largestExtent (verticesOf lines)) :
    V = flattenVertices (specNormalized (verticesOf lines)) ∧
    largestExtent (specNormalized (verticesOf lines)) = 2 ∧
    axisCenter Vec3.x (specNormalized (verticesOf lines)) = 0 ∧
    axisCenter Vec3.y (specNormalized (verticesOf lines)) = 0 ∧
    axisCenter Vec3.z (specNormalized (verticesOf lines)) = 0 := by
  obtain ⟨st, hl, hI, hV⟩ := load_ok_decomp h
  obtain ⟨hverts, e1, e2, e3, e4, e5, e6⟩ := load_extents hl hne hb
  have hoff : (⟨jsDiv (-(jsAdd st.maxExtent.x st.minExtent.x)) 2,
      jsDiv (-(jsAdd st.maxExtent.y st.minExtent.y)) 2,
      jsDiv (-(jsAdd st.maxExtent.z st.minExtent.z)) 2⟩ : Vec3) =
      specOffset (verticesOf lines) := by
    rw [e1, e2, e3, e4, e5, e6]
    rfl
  have hsc : jsDiv 2 (max (jsSub st.maxExtent.x st.minExtent.x)
      (max (jsSub st.maxExtent.y st.minExtent.y)
        (jsSub st.maxExtent.z st.minExtent.z))) =
      specScale (verticesOf lines) := by
    rw [e1, e2, e3, e4, e5, e6]
    rfl
  obtain ⟨hext, hcx, hcy, hcz⟩ := specNormalized_extent_center hne hpos
  refine ⟨?_, hext, hcx, hcy, hcz⟩
  rw [hV, hverts, hoff, hsc]
  rfl

/-- Witness for C3 at the two-vertex mesh `(0,0,0), (1,2,0)`. -/
theorem load_normalization_witness :
    load [ObjRecord.vLine 0 0 0, ObjRecord.vLine 1 2 0] =
      .ok ([Rat.divInt (-1) 2, -1, 0, Rat.divInt 1 2, 1, 0], []) ∧
    ([Rat.divInt (-1) 2, -1, 0, Rat.divInt 1 2, 1, 0] : List ℚ) =
      flattenVertices (specNormalized
        (verticesOf [ObjRecord.vLine 0 0 0, ObjRecord.vLine 1 2 0])) ∧
    largestExtent (specNormalized
      (verticesOf [ObjRecord.vLine 0 0 0, ObjRecord.vLine 1 2 0])) = 2 ∧
    axisCenter Vec3.x (specNormalized
      (verticesOf [ObjRecord.vLine 0 0 0, ObjRecord.vLine 1 2 0])) = 0 := by
  have h : load [ObjRecord.vLine 0 0 0, ObjRecord.vLine 1 2 0] =
      .ok ([Rat.divInt (-1) 2, -1, 0, Rat.divInt 1 2, 1, 0], []) := by decide
  have hmain := load_normalization [ObjRecord.vLine 0 0 0, ObjRecord.vLine 1 2 0]
    [Rat.divInt (-1) 2, -1, 0, Rat.divInt 1 2, 1, 0] [] h (by decide) (by decide)
    (by decide)
  exact ⟨h, hmain.1, hmain.2.1, hmain.2.2.1⟩

/-- C4: each face reference contributes `parseInt` of its leading
slash-field minus one (1-based to 0-based); a 3-reference face is emitted
as one triangle, a 4-reference face `[a,b,c,d]` as exactly
`[a,b,c,a,c,d]`, and `load` returns the per-face emissions concatenated in
face-emission order. -/
theorem face_triangulation (a b c d : String) (lines : List ObjRecord)
    (V : List ℚ) (I : List (Option Int)) :
    parseFace [a, b, c] = .ok [faceIndex a, faceIndex b, faceIndex c] ∧
    parseFace [a, b, c, d] =
      .ok [faceIndex a, faceIndex b, faceIndex c,
           faceIndex a, faceIndex c, faceIndex d] ∧
    triangulateFace [faceIndex a, faceIndex b, faceIndex c, faceIndex d] =
      [faceIndex a, faceIndex b, faceIndex c,
       faceIndex a, faceIndex c, faceIndex d] ∧
    (load lines = .ok (V, I) → emittedIndices lines = .ok I) := by
  refine ⟨parseFace_three a b c, parseFace_four a b c d, rfl, fun h => ?_⟩
  obtain ⟨st, hl, hI, _⟩ := load_ok_decomp h
  obtain ⟨is, hemit, hst⟩ := loadLoop_ok lines initialState st hl
  rw [hemit, hI, hst]
  simp [initialState]

/-- Witness for C4 at a quad face with slash-fields and at a concrete
mesh. -/
theorem face_triangulation_witness :
    parseFace ["2/7/1", "3", "4", "5"] =
      .ok [some 1, some 2, some 3, some 1, some 3, some 4] ∧
    emittedIndices [ObjRecord.vLine 0 0 0, ObjRecord.fLine ["1", "2", "1"]] =
      .ok [some 0, some 1, some 0] := by
  constructor
  · exact (face_triangulation "2/7/1" "3" "4" "5" [] [] []).2.1.trans (by decide)
  · exact (face_triangulation "x" "x" "x" "x"
      [ObjRecord.vLine 0 0 0, ObjRecord.fLine ["1", "2", "1"]]
      [0, 0, 0] [some 0, some 1, some 0]).2.2.2 (by decide)

/-- C5: a face record whose reference count is neither 3 nor 4 makes the
whole `load` fail with the `"Unsupported face format"` error; no partial
buffers are returned. -/
theorem unsupported_face_aborts_load (lines : List ObjRecord)
    (parts : List String) (hmem : ObjRecord.fLine parts ∈ lines)
    (h3 : parts.length ≠ 3) (h4 : parts.length ≠ 4) :
    load lines = .error "Unsupported face format" := by
  unfold load
  rw [loadLoop_bad_face lines initialState parts hmem h3 h4]

/-- Witness for C5 at a mesh with a 5-reference face. -/
theorem unsupported_face_aborts_load_witness :
    load [ObjRecord.vLine 0 0 0,
      ObjRecord.fLine ["1", "2", "3", "4", "5"]] =
      .error "Unsupported face format" :=
  unsupported_face_aborts_load _ ["1", "2", "3", "4", "5"] (by decide)
    (by decide) (by decide)

/-- C9: the normalization divisor is unguarded — a mesh of one or more
identical points reaches the `scale` division with divisor `0`, an empty
mesh with divisor `-2 * Number.MAX_VALUE`, and in both cases `load`
succeeds without any degenerate-case branch. -/
theorem degenerate_extent_unguarded (x y z : ℚ) (n : Nat)
    (hx1 : -numberMaxValue ≤ x) (hx2 : x ≤ numberMaxValue)
    (hy1 : -numberMaxValue ≤ y) (hy2 : y ≤ numberMaxValue)
    (hz1 : -numberMaxValue ≤ z) (hz2 : z ≤ numberMaxValue) :
    normDivisor (List.replicate (n + 1) (ObjRecord.vLine x y z)) = 0 ∧
    exceptIsOk (load (List.replicate (n + 1) (ObjRecord.vLine x y z))) = true ∧
    normDivisor ([] : List ObjRecord) = -(2 * numberMaxValue) ∧
    load ([] : List ObjRecord) = .ok ([], []) := by
  have hnoface : ∀ parts, ObjRecord.fLine parts ∉
      List.replicate (n + 1) (ObjRecord.vLine x y z) := by
    intro parts hmem
    exact absurd (List.eq_of_mem_replicate hmem) (by simp)
  obtain ⟨st, hok⟩ := loadLoop_no_face _ initialState hnoface
  have hne : verticesOf (List.replicate (n + 1) (ObjRecord.vLine x y z)) ≠ [] := by
    rw [verticesOf_replicate]
    simp
  have hb : ∀ v ∈ verticesOf (List.replicate (n + 1) (ObjRecord.vLine x y z)),
      -numberMaxValue ≤ v.x ∧ v.x ≤ numberMaxValue ∧
      -numberMaxValue ≤ v.y ∧ v.y ≤ numberMaxValue ∧
      -numberMaxValue ≤ v.z ∧ v.z ≤ numberMaxValue := by
    intro v hv
    rw [verticesOf_replicate] at hv
    obtain rfl := List.eq_of_mem_replicate hv
    exact ⟨hx1, hx2, hy1, hy2, hz1, hz2⟩
  obtain ⟨_, e1, e2, e3, e4, e5, e6⟩ := load_extents hok hne hb
  have hmins : ∀ f : Vec3 → ℚ,
      axisMin f (verticesOf (List.replicate (n + 1) (ObjRecord.vLine x y z))) =
        f ⟨x, y, z⟩ := by
    intro f
    rw [verticesOf_replicate, axisMin, List.map_replicate, listMin_replicate]
  have hmaxs : ∀ f : Vec3 → ℚ,
      axisMax f (verticesOf (List.replicate (n + 1) (ObjRecord.vLine x y z))) =
        f ⟨x, y, z⟩ := by
    intro f
    rw [verticesOf_replicate, axisMax, List.map_replicate, listMax_replicate]
  refine ⟨?_, ?_, ?_, ?_⟩
  · simp only [normDivisor, hok]
    rw [e1, e2, e3, e4, e5, e6, hmins, hmins, hmins, hmaxs, hmaxs, hmaxs]
    simp [jsSub_eq]
  · rw [load, hok]
    rfl
  · show max (jsSub initialState.maxExtent.x initialState.minExtent.x)
      (max (jsSub initialState.maxExtent.y initialState.minExtent.y)
        (jsSub initialState.maxExtent.z initialState.minExtent.z)) =
      -(2 * numberMaxValue)
    show max (jsSub (-numberMaxValue) numberMaxValue)
      (max (jsSub (-numberMaxValue) numberMaxValue)
        (jsSub (-numberMaxValue) numberMaxValue)) = -(2 * numberMaxValue)
    rw [jsSub_eq, max_self, max_self]
    ring
  · rfl

/-- Witness for C9 at the one-point mesh `(1,1,1)`. -/
theorem degenerate_extent_unguarded_witness :
    normDivisor [ObjRecord.vLine 1 1 1] = 0 ∧
    exceptIsOk (load [ObjRecord.vLine 1 1 1]) = true ∧
    normDivisor ([] : List ObjRecord) = -(2 * numberMaxValue) ∧
    load ([] : List ObjRecord) = .ok ([], []) :=
  degenerate_extent_unguarded 1 1 1 0 (by decide) (by decide) (by decide)
    (by decide) (by decide) (by decide)

/-- C10: face references are never range-checked against the vertex count —
the emitted index is always the leading token minus one, so a face token
`"0"` yields index `-1` and a token `"9"` in a 3-vertex mesh yields index
`8`, both accepted by `load` without error. -/
theorem face_indices_unchecked :
    (∀ a b c : String,
      parseFace [a, b, c] = .ok [faceIndex a, faceIndex b, faceIndex c]) ∧
    load [ObjRecord.vLine 0 0 0, ObjRecord.vLine 2 0 0, ObjRecord.vLine 0 2 0,
        ObjRecord.fLine ["0", "1", "2"]] =
      .ok ([-1, -1, 0, 1, -1, 0, -1, 1, 0], [some (-1), some 0, some 1]) ∧
    (some (-1 : Int) ∈ [some (-1 : Int), some 0, some 1] ∧ (-1 : Int) < 0) ∧
    load [ObjRecord.vLine 0 0 0, ObjRecord.vLine 2 0 0, ObjRecord.vLine 0 2 0,
        ObjRecord.fLine ["1", "2", "9"]] =
      .ok ([-1, -1, 0, 1, -1, 0, -1, 1, 0], [some 0, some 1, some 8]) ∧
    (verticesOf [ObjRecord.vLine 0 0 0, ObjRecord.vLine 2 0 0,
      ObjRecord.vLine 0 2 0, ObjRecord.fLine ["1", "2", "9"]]).length = 3 ∧
    ¬ ((8 : Int) < 3) :=
  ⟨fun a b c => parseFace_three a b c, by decide, by decide, by decide,
    by decide, by decide⟩

end ObjModel

/-! ## Scenegraph lemmas -/

namespace SceneModel

theorem calculateWorldTransformation_eq {M : Type} [Monoid M] (t : M)
    (anc : List M) :
    calculateWorldTransformation t anc = prodRev anc * t := by
  rw [calculateWorldTransformation, getTransformationHierarchy,
    List.reverse_cons, List.foldl_append]
  rfl

theorem prodRev_cons {M : Type} [Monoid M] (t : M) (anc : List M) :
    prodRev (t :: anc) = prodRev anc * t := by
  rw [prodRev, List.reverse_cons, List.foldl_append]
  rfl

mutual

theorem checkInvariant_setTransformation {M : Type} [Monoid M] [DecidableEq M]
    (anc : List M) (t : M) : ∀ n : SceneNode M,
    checkInvariant (prodRev anc) (setTransformation anc t n) = true
  | .mk nm ty tr w isM objT ch => by
      simp only [setTransformation, checkInvariant,
        calculateWorldTransformation_eq, Bool.and_eq_true, decide_eq_true_eq]
      refine ⟨trivial, ?_⟩
      rw [← prodRev_cons]
      exact checkInvariantForest_setChildren (t :: anc) ch

theorem checkInvariantForest_setChildren {M : Type} [Monoid M] [DecidableEq M]
    (anc : List M) : ∀ f : SceneForest M,
    checkInvariantForest (prodRev anc) (setChildrenTransformations anc f) = true
  | .nil => rfl
  | .cons c cs => by
      simp only [setChildrenTransformations, checkInvariantForest,
        Bool.and_eq_true]
      exact ⟨checkInvariant_setTransformation anc c.transformation c,
        checkInvariantForest_setChildren anc cs⟩

end

mutual

theorem checkInvariant_setAt {M : Type} [Monoid M] [DecidableEq M] :
    ∀ (path : List Nat) (anc : List M) (t : M) (n : SceneNode M),
    checkInvariant (prodRev anc) n = true →
    checkInvariant (prodRev anc) (setTransformationAt anc t path n) = true
  | [], anc, t, n, _ => by
      simp only [setTransformationAt]
      exact checkInvariant_setTransformation anc t n
  | i :: rest, anc, t, .mk nm ty tr w isM objT ch, hprev => by
      simp only [setTransformationAt, checkInvariant, Bool.and_eq_true,
        decide_eq_true_eq] at hprev ⊢
      obtain ⟨hw, hch⟩ := hprev
      refine ⟨hw, ?_⟩
      rw [← prodRev_cons] at hch ⊢
      exact checkInvariantForest_setAt i rest (tr :: anc) t ch hch

theorem checkInvariantForest_setAt {M : Type} [Monoid M] [DecidableEq M] :
    ∀ (i : Nat) (rest : List Nat) (anc : List M) (t : M) (f : SceneForest M),
    checkInvariantForest (prodRev anc) f = true →
    checkInvariantForest (prodRev anc) (setTransformationAtForest anc t i rest f) = true
  | _, _, _, _, .nil, h => by
      simp only [setTransformationAtForest]
      exact h
  | 0, rest, anc, t, .cons c cs, h => by
      simp only [setTransformationAtForest, checkInvariantForest,
        Bool.and_eq_true] at h ⊢
      exact ⟨checkInvariant_setAt rest anc t c h.1, h.2⟩
  | i + 1, rest, anc, t, .cons c cs, h => by
      simp only [setTransformationAtForest, checkInvariantForest,
        Bool.and_eq_true] at h ⊢
      exact ⟨h.1, checkInvariantForest_setAt i rest anc t cs h.2⟩

end

end SceneModel

namespace SceneModel

mutual

theorem localsList_setTransformation {M : Type} [Monoid M] (anc : List M)
    (t : M) : ∀ n : SceneNode M,
    localsList (setTransformation anc t n) = t :: (localsList n).tail
  | .mk nm ty tr w isM objT ch => by
      simp only [setTransformation, localsList, List.tail_cons]
      rw [localsListForest_setChildren (t :: anc) ch]

theorem localsListForest_setChildren {M : Type} [Monoid M] (anc : List M) :
    ∀ f : SceneForest M,
    localsListForest (setChildrenTransformations anc f) = localsListForest f
  | .nil => rfl
  | .cons c cs => by
      cases c with
      | mk nm ty tr w isM objT ch2 =>
          simp only [setChildrenTransformations, localsListForest,
            SceneNode.transformation]
          rw [localsList_setTransformation anc tr _,
            localsListForest_setChildren anc cs]
          simp [localsList]

end

mutual

theorem namesList_setTransformation {M : Type} [Monoid M] (anc : List M)
    (t : M) : ∀ n : SceneNode M,
    namesList (setTransformation anc t n) = namesList n
  | .mk nm ty tr w isM objT ch => by
      simp only [setTransformation, namesList]
      rw [namesListForest_setChildren (t :: anc) ch]

theorem namesListForest_setChildren {M : Type} [Monoid M] (anc : List M) :
    ∀ f : SceneForest M,
    namesListForest (setChildrenTransformations anc f) = namesListForest f
  | .nil => rfl
  | .cons c cs => by
      simp only [setChildrenTransformations, namesListForest]
      rw [namesList_setTransformation anc c.transformation c,
        namesListForest_setChildren anc cs]

end

mutual

theorem checkObjSync_setTransformation {M : Type} [Monoid M] [DecidableEq M]
    (anc : List M) (t : M) : ∀ n : SceneNode M,
    checkObjSync (setTransformation anc t n) = true
  | .mk nm ty tr w isM objT ch => by
      simp only [setTransformation, checkObjSync, Bool.and_eq_true]
      constructor
      · cases isM <;> simp
      · exact checkObjSyncForest_setChildren (t :: anc) ch

theorem checkObjSyncForest_setChildren {M : Type} [Monoid M] [DecidableEq M]
    (anc : List M) : ∀ f : SceneForest M,
    checkObjSyncForest (setChildrenTransformations anc f) = true
  | .nil => rfl
  | .cons c cs => by
      simp only [setChildrenTransformations, checkObjSyncForest,
        Bool.and_eq_true]
      exact ⟨checkObjSync_setTransformation anc c.transformation c,
        checkObjSyncForest_setChildren anc cs⟩

end

mutual

theorem getNodes_eq_append {M : Type} : ∀ (n : SceneNode M)
    (acc : List (SceneNode M)), getNodes acc n = acc ++ preorder n
  | .mk nm ty t w isM objT ch, acc => by
      simp only [getNodes, preorder]
      rw [getNodesForest_eq_append ch (acc ++ [SceneNode.mk nm ty t w isM objT ch])]
      simp

theorem getNodesForest_eq_append {M : Type} : ∀ (f : SceneForest M)
    (acc : List (SceneNode M)), getNodesForest acc f = acc ++ preorderForest f
  | .nil, acc => by simp [getNodesForest, preorderForest]
  | .cons c cs, acc => by
      simp only [getNodesForest, preorderForest]
      rw [getNodes_eq_append c acc, getNodesForest_eq_append cs (acc ++ preorder c)]
      simp

end

mutual

theorem preorder_length {M : Type} : ∀ n : SceneNode M,
    (preorder n).length = size n
  | .mk nm ty t w isM objT ch => by
      simp only [preorder, size, List.length_cons]
      rw [preorderForest_length ch]
      omega

theorem preorderForest_length {M : Type} : ∀ f : SceneForest M,
    (preorderForest f).length = sizeForest f
  | .nil => rfl
  | .cons c cs => by
      simp only [preorderForest, sizeForest, List.length_append]
      rw [preorder_length c, preorderForest_length cs]

end

theorem find_append {α : Type} (p : α → Bool) : ∀ (l1 l2 : List α),
    (l1 ++ l2).find? p =
      (match l1.find? p with
        | some a => some a
        | none => l2.find? p)
  | [], l2 => rfl
  | a :: l1, l2 => by
      by_cases h : p a
      · simp [List.find?_cons_of_pos, h]
      · simp only [List.cons_append, List.find?_cons_of_neg _ h]
        exact find_append p l1 l2

mutual

theorem getNode_eq_find {M : Type} (name : String) : ∀ n : SceneNode M,
    getNode name n = (preorder n).find? (fun m => m.name == name)
  | .mk nm ty t w isM objT ch => by
      by_cases h : nm = name
      · simp [getNode, preorder, h, SceneNode.name, List.find?_cons_of_pos]
      · simp only [getNode, preorder, if_neg h]
        rw [List.find?_cons_of_neg _ (by simp [SceneNode.name, h])]
        exact getNodeForest_eq_find name ch

theorem getNodeForest_eq_find {M : Type} (name : String) : ∀ f : SceneForest M,
    getNodeForest name f = (preorderForest f).find? (fun m => m.name == name)
  | .nil => rfl
  | .cons c cs => by
      simp only [getNodeForest, preorderForest]
      rw [find_append, ← getNode_eq_find name c, ← getNodeForest_eq_find name cs]
      cases getNode name c <;> rfl

end

end SceneModel

namespace SceneModel

/-- C2: after any `setTransformation` call on any node of a tree whose
cached world transforms were consistent (and unconditionally for the root
call made at the end of `Scene` construction), every node's cached world
transform equals the product of all its ancestors' local transforms in
root-to-node order composed with its own local transform. -/
theorem world_transform_invariant (M : Type) [Monoid M] [DecidableEq M]
    (root : SceneNode M) (t : M) :
    checkInvariant 1 (setTransformation [] t root) = true ∧
    (∀ path : List Nat, checkInvariant 1 root = true →
      checkInvariant 1 (setTransformationAt [] t path root) = true) := by
  constructor
  · exact checkInvariant_setTransformation ([] : List M) t root
  · intro path hprev
    exact checkInvariant_setAt path ([] : List M) t root hprev

/-- Witness for C2 at a two-node tree over the monoid `ℕ`. -/
theorem world_transform_invariant_witness :
    checkInvariant 1 (setTransformation ([] : List ℕ) 5
      (SceneNode.mk "root" "node" 2 2 false 1
        (SceneForest.cons (SceneNode.mk "child" "model" 3 6 true 6
          SceneForest.nil) SceneForest.nil))) = true ∧
    checkInvariant 1 (setTransformationAt ([] : List ℕ) 7 [0]
      (SceneNode.mk "root" "node" 2 2 false 1
        (SceneForest.cons (SceneNode.mk "child" "model" 3 6 true 6
          SceneForest.nil) SceneForest.nil))) = true := by
  refine ⟨(world_transform_invariant ℕ _ 5).1, ?_⟩
  exact (world_transform_invariant ℕ
    (SceneNode.mk "root" "node" 2 2 false 1
      (SceneForest.cons (SceneNode.mk "child" "model" 3 6 true 6
        SceneForest.nil) SceneForest.nil)) 7).2 [0] (by decide)

/-- C6: `setTransformation` replaces only the target node's local
transform — the pre-order listing of local transforms of the result is the
new transform followed by the unchanged locals of all descendants, names
are untouched — and every `ModelNode` in the subtree ends up with its
owned renderable's transform equal to its refreshed cached world
transform. -/
theorem setTransformation_locals_and_push (M : Type) [Monoid M]
    [DecidableEq M] (ancestors : List M) (t : M) (n : SceneNode M) :
    localsList (setTransformation ancestors t n) = t :: (localsList n).tail ∧
    namesList (setTransformation ancestors t n) = namesList n ∧
    checkObjSync (setTransformation ancestors t n) = true :=
  ⟨localsList_setTransformation ancestors t n,
   namesList_setTransformation ancestors t n,
   checkObjSync_setTransformation ancestors t n⟩

/-- C7: `Scene.getNodes` returns exactly the depth-first pre-order listing
of the tree — each node once, every parent before its children, children
in declaration order — with as many entries as the tree has nodes. -/
theorem getNodes_preorder_complete (M : Type) (root : SceneNode M) :
    sceneGetNodes root = preorder root ∧
    (sceneGetNodes root).length = size root := by
  have h1 : sceneGetNodes root = preorder root := by
    have h := getNodes_eq_append root []
    simpa [sceneGetNodes] using h
  exact ⟨h1, by rw [h1, preorder_length]⟩

/-- C8: `getNode` returns the first match of a depth-first pre-order
search, and `Scene.getNode` converts the no-match case into the fatal
"not found in scenegraph" error instead of returning a node. -/
theorem getNode_first_match (M : Type) (root : SceneNode M) (name : String) :
    getNode name root = (preorder root).find? (fun m => m.name == name) ∧
    sceneGetNode root name =
      (match (preorder root).find? (fun m => m.name == name) with
        | some n => Except.ok n
        | none => Except.error
            ("Node \"" ++ name ++ "\" not found in scenegraph")) := by
  have h := getNode_eq_find name root
  refine ⟨h, ?_⟩
  rw [sceneGetNode, h]

/-- C1 (code bug): the guard `!name in this.models` of
`Scene.instantiateModel` parses as `(!name) in this.models`, so for a
model table without a `"true"`/`"false"` key the ModelNotFound throw can
never fire; a missing model name instead reaches the destructuring of
`undefined` and fails with a TypeError. -/
theorem modelNotFound_guard_dead :
    instantiateModel [] "missing" =
      .error (.typeError "undefined is not iterable") ∧
    (∀ (models : List (String × Mesh)) (name : String),
      jsObjectHasKey models "true" = false →
      jsObjectHasKey models "false" = false →
      ∀ msg, instantiateModel models name ≠ .error (.thrown msg)) := by
  constructor
  · decide
  · intro models name h1 h2 msg h
    unfold instantiateModel at h
    have hkey : jsObjectHasKey models
        (jsBoolToPropertyKey (!jsTruthyString name)) = false := by
      cases hb : !jsTruthyString name
      · simpa [jsBoolToPropertyKey] using h2
      · simpa [jsBoolToPropertyKey] using h1
    rw [if_neg (by simp [hkey])] at h
    cases hget : jsObjectGet models name with
    | some mesh => rw [hget] at h; simp at h
    | none => rw [hget] at h; simp at h

/-- Witness for C1: with a one-model table, a missing name does not
produce the ModelNotFound throw. -/
theorem modelNotFound_guard_dead_witness :
    instantiateModel [] "missing" =
      .error (.typeError "undefined is not iterable") ∧
    instantiateModel [("cube", ⟨[], []⟩)] "missing" ≠
      .error (.thrown "Unable to find model \"missing\" requested by scenengraph") :=
  ⟨modelNotFound_guard_dead.1,
   modelNotFound_guard_dead.2 [("cube", ⟨[], []⟩)] "missing" (by decide)
     (by decide) _⟩

end SceneModel
